import Mathlib

/-!
# Verification of the FastGH session-registry and notification-diff engine

Shallow embedding of the state-bearing core of the FastGH desktop GitHub
client:

* the per-stream notification-diff handlers of `GUI/main.py`
  (`_check_and_notify_feed`, `_check_and_notify_notifications`,
  `_check_and_notify_starred`, `_check_and_notify_watched`),
* the session registry of `application.py`
  (`add_session`, `remove_account`) and the account-dialog actions of
  `GUI/accounts.py` (`on_switch`, `on_add`),
* the paginated fetch loops of `github_api.py`
  (`get_repos`, `get_repo`, `get_commits`).

Python mutable attributes become explicit state passed in and out; Python
exceptions of the HTTP layer become an `Except` result; Python `set`s of
ids become `Finset`s (for the timestamp-paired streams, where the code
iterates over the set with `next(...)`, a duplicate-free list in a
canonical order, which agrees with the Python set whenever ids are
unique — the only situation the source can reach, since each fetched
repository contributes one key).
-/

set_option autoImplicit false

/-! ## Data model

Each domain record keeps only the fields the embedded handlers read.
`Event.display` stands for the output of `Event.format_display()`
(`models/event.py`), which the feed handler truncates to 100 characters;
its internal formatting is irrelevant to every claim.
-/

/-- One activity-feed event (`models/event.py`): the handler reads `id`
and `format_display()`. -/
structure Event where
  id : Nat
  display : String
  deriving DecidableEq, Repr

/-- One GitHub notification (`models/notification.py`): the handler reads
`id`, `unread`, `subject.title` and `repository_full_name`. -/
structure Notif where
  id : String
  unread : Bool
  subjectTitle : String
  repositoryFullName : String
  deriving DecidableEq, Repr

/-- One repository (`models/repository.py`): the starred/watched handlers
read `id`, `pushed_at` (already serialized with `isoformat()`, `none`
when absent) and `full_name`. -/
structure Repo where
  id : Nat
  pushedAt : Option String
  fullName : String
  deriving DecidableEq, Repr

/-- One commit (`models/commit.py`); contents are irrelevant to the
pagination logic, so a single identifying field suffices. -/
structure Commit where
  sha : Nat
  deriving DecidableEq, Repr

/-- The four per-stream OS-notification toggles of `application.py`
(`prefs.notify_activity`, `prefs.notify_notifications`,
`prefs.notify_starred`, `prefs.notify_watched`). -/
structure Prefs where
  notify_activity : Bool
  notify_notifications : Bool
  notify_starred : Bool
  notify_watched : Bool
  deriving DecidableEq, Repr

/-- A desktop notification as handed to `show_notification(title, message)`. -/
structure NotifMsg where
  title : String
  message : String
  deriving DecidableEq, Repr

/-! ## Notification-diff handlers (`GUI/main.py`)

Each `_check_and_notify_*` method reads and writes one `_last_*_ids`
attribute of the main window (`None` initially — the uninitialized
sentinel, distinct from the empty set) and calls `show_notification` at
most once.  The embedding passes the attribute in and returns the new
attribute value together with the (at most one) emitted notification.
-/

/-- The key set `{event.id for event in new_feed}`. -/
def feedKeys (new_feed : List Event) : Finset Nat :=
  (new_feed.map Event.id).toFinset

/-- Embeds `_check_and_notify_feed` (`GUI/main.py:650-674`). -/
def check_and_notify_feed (prefs : Prefs) (last_feed_ids : Option (Finset Nat))
    (new_feed : List Event) : Option (Finset Nat) × Option NotifMsg :=
  if !prefs.notify_activity then (last_feed_ids, none)
  else
    let new_ids := feedKeys new_feed
    match last_feed_ids with
    | none => (some new_ids, none)
    | some prev =>
      let new_item_ids := new_ids \ prev
      let emitted :=
        if new_item_ids = ∅ then none
        else
          let count := new_item_ids.card
          (new_feed.find? (fun e => e.id ∈ new_item_ids)).map
            (fun new_event =>
              let plural := if count > 1 then "s" else ""
              ⟨s!"{count} new activity item{plural}",
                new_event.display.take 100⟩)
      (some new_ids, emitted)

/-- The key set `{n.id for n in new_notifications if n.unread}`. -/
def unreadKeys (new_notifs : List Notif) : Finset String :=
  ((new_notifs.filter (fun n => n.unread)).map Notif.id).toFinset

/-- Embeds `_check_and_notify_notifications` (`GUI/main.py:676-699`). -/
def check_and_notify_notifications (prefs : Prefs)
    (last_notif_ids : Option (Finset String)) (new_notifs : List Notif) :
    Option (Finset String) × Option NotifMsg :=
  if !prefs.notify_notifications then (last_notif_ids, none)
  else
    let new_ids := unreadKeys new_notifs
    match last_notif_ids with
    | none => (some new_ids, none)
    | some prev =>
      let new_item_ids := new_ids \ prev
      let emitted :=
        if new_item_ids = ∅ then none
        else
          let count := new_item_ids.card
          (new_notifs.find? (fun n => n.id ∈ new_item_ids)).map
            (fun new_notif =>
              let plural := if count > 1 then "s" else ""
              let t := new_notif.subjectTitle
              let r := new_notif.repositoryFullName
              ⟨s!"{count} new GitHub notification{plural}",
                s!"{t} ({r})"⟩)
      (some new_ids, emitted)

/-- The comparison key `(r.id, r.pushed_at.isoformat() if r.pushed_at else "")`. -/
def repoKey (r : Repo) : Nat × String :=
  (r.id, r.pushedAt.getD "")

/-- The Python set `{(r.id, ts) for r in repos}`, as a duplicate-free key
list in a canonical order. -/
def repoKeys (repos : List Repo) : List (Nat × String) :=
  (repos.map repoKey).dedup

/-- The `updated_repos` accumulation shared verbatim by
`_check_and_notify_starred` (`GUI/main.py:718-723`) and
`_check_and_notify_watched` (`GUI/main.py:749-754`): a repo is collected
when `next((k for k in last_ids if k[0] == repo.id), None)` finds a prior
key with the same id and that key differs from the repo's current key. -/
def pushUpdated (last_ids : List (Nat × String)) (repos : List Repo) :
    List Repo :=
  repos.filter (fun r =>
    match last_ids.find? (fun k => k.1 = r.id) with
    | some old_key => decide (old_key ≠ repoKey r)
    | none => false)

/-- Title/message built by both timestamp-paired handlers:
`updated_repos[0].full_name` plus `" and {count-1} more"` when more than
one repo updated; `kind` is `"starred"` or `"watched"`. -/
def pushUpdateMsg (kind : String) (r0 : Repo) (count : Nat) : NotifMsg :=
  let plural := if count > 1 then "s" else ""
  let base := r0.fullName
  let more := count - 1
  let message := if count > 1 then s!"{base} and {more} more" else base
  ⟨s!"{count} {kind} repo{plural} updated", message⟩

/-- Embeds `_check_and_notify_starred` (`GUI/main.py:701-733`).  (The source also
computes locals `new_id_only` and `old_id_only`, which it never uses.) -/
def check_and_notify_starred (prefs : Prefs)
    (last_starred_ids : Option (List (Nat × String))) (new_starred : List Repo) :
    Option (List (Nat × String)) × Option NotifMsg :=
  if !prefs.notify_starred then (last_starred_ids, none)
  else
    let new_ids := repoKeys new_starred
    match last_starred_ids with
    | none => (some new_ids, none)
    | some prev =>
      let emitted :=
        match pushUpdated prev new_starred with
        | [] => none
        | r0 :: rest => some (pushUpdateMsg "starred" r0 (rest.length + 1))
      (some new_ids, emitted)

/-- Embeds `_check_and_notify_watched` (`GUI/main.py:735-764`). -/
def check_and_notify_watched (prefs : Prefs)
    (last_watched_ids : Option (List (Nat × String))) (new_watched : List Repo) :
    Option (List (Nat × String)) × Option NotifMsg :=
  if !prefs.notify_watched then (last_watched_ids, none)
  else
    let new_ids := repoKeys new_watched
    match last_watched_ids with
    | none => (some new_ids, none)
    | some prev =>
      let emitted :=
        match pushUpdated prev new_watched with
        | [] => none
        | r0 :: rest => some (pushUpdateMsg "watched" r0 (rest.length + 1))
      (some new_ids, emitted)

/-! ## Theorems: notification-diff engine -/

/-- C4: for every stream, the first fetch after launch (snapshot still the
uninitialized sentinel `none`, distinct from `some ∅`) emits no desktop
notification, whatever the fetch contains and whatever the toggle state
is: a disabled toggle returns before notifying, and an enabled toggle on
an uninitialized snapshot stores the key set and stops. -/
theorem C4_first_fetch_never_notifies :
    ∀ (prefs : Prefs) (feed : List Event) (notifs : List Notif)
      (starred watched : List Repo),
      (check_and_notify_feed prefs none feed).2 = none ∧
      (check_and_notify_notifications prefs none notifs).2 = none ∧
      (check_and_notify_starred prefs none starred).2 = none ∧
      (check_and_notify_watched prefs none watched).2 = none := by
  intro prefs feed notifs starred watched
  refine ⟨?_, ?_, ?_, ?_⟩
  · cases h : prefs.notify_activity <;> simp [check_and_notify_feed, h]
  · cases h : prefs.notify_notifications <;>
      simp [check_and_notify_notifications, h]
  · cases h : prefs.notify_starred <;> simp [check_and_notify_starred, h]
  · cases h : prefs.notify_watched <;> simp [check_and_notify_watched, h]

/-- C1 counterexample: with the activity toggle disabled, a prior snapshot
`{1}` and a fetch containing only the new event id 2,
`_check_and_notify_feed` returns at its first line, so the stored
snapshot stays `{1}` and is not replaced with the cycle's key set `{2}` —
refuting the claim that a cycle run while the toggle is disabled still
replaces the snapshot. -/
theorem C1_counterexample_disabled_toggle_keeps_snapshot :
    (check_and_notify_feed ⟨false, false, false, false⟩ (some {1})
        [⟨2, "e"⟩]).1 = some {1} ∧
    (check_and_notify_feed ⟨false, false, false, false⟩ (some {1})
        [⟨2, "e"⟩]).1 ≠ some (feedKeys [⟨2, "e"⟩]) := by
  constructor
  · rfl
  · decide

/-- C1 amended: for every stream, when the stream's toggle is enabled the
stored snapshot is unconditionally replaced (or, on the first cycle,
initialized) with the key set computed from that cycle's fetch,
regardless of whether a notification fired; when the toggle is disabled
the handler returns before touching the snapshot, leaving it unchanged. -/
theorem C1_amended_snapshot_replacement :
    ∀ (prefs : Prefs) (lf : Option (Finset Nat)) (ln : Option (Finset String))
      (ls lw : Option (List (Nat × String)))
      (feed : List Event) (notifs : List Notif) (starred watched : List Repo),
      (check_and_notify_feed prefs lf feed).1
          = (if prefs.notify_activity then some (feedKeys feed) else lf) ∧
      (check_and_notify_notifications prefs ln notifs).1
          = (if prefs.notify_notifications then some (unreadKeys notifs) else ln) ∧
      (check_and_notify_starred prefs ls starred).1
          = (if prefs.notify_starred then some (repoKeys starred) else ls) ∧
      (check_and_notify_watched prefs lw watched).1
          = (if prefs.notify_watched then some (repoKeys watched) else lw) := by
  intro prefs lf ln ls lw feed notifs starred watched
  refine ⟨?_, ?_, ?_, ?_⟩
  · cases h : prefs.notify_activity <;> cases lf <;>
      simp [check_and_notify_feed, h]
  · cases h : prefs.notify_notifications <;> cases ln <;>
      simp [check_and_notify_notifications, h]
  · cases h : prefs.notify_starred <;> cases ls <;>
      simp [check_and_notify_starred, h]
  · cases h : prefs.notify_watched <;> cases lw <;>
      simp [check_and_notify_watched, h]

/-- When the "new since previous snapshot" id set of the feed stream is
non-empty, `next((e for e in new_feed if e.id in new_item_ids), None)`
finds an event, because every id in the difference set came from the
fetched list itself. -/
lemma feed_find_isSome (feed : List Event) (prev : Finset Nat)
    (h : (feedKeys feed \ prev).Nonempty) :
    (feed.find? (fun e => decide (e.id ∈ feedKeys feed \ prev))).isSome := by
  rw [List.find?_isSome]
  obtain ⟨i, hi⟩ := h
  have h1 := (Finset.mem_sdiff.mp hi).1
  rw [feedKeys, List.mem_toFinset, List.mem_map] at h1
  obtain ⟨e, he, rfl⟩ := h1
  exact ⟨e, he, by simpa using hi⟩

/-- Same for the notifications stream: ids in the difference set come from
the unread sublist of the fetched list. -/
lemma notif_find_isSome (notifs : List Notif) (prev : Finset String)
    (h : (unreadKeys notifs \ prev).Nonempty) :
    (notifs.find? (fun n => decide (n.id ∈ unreadKeys notifs \ prev))).isSome := by
  rw [List.find?_isSome]
  obtain ⟨i, hi⟩ := h
  have h1 := (Finset.mem_sdiff.mp hi).1
  rw [unreadKeys, List.mem_toFinset, List.mem_map] at h1
  obtain ⟨n, hn, rfl⟩ := h1
  exact ⟨n, (List.mem_filter.mp hn).1, by simpa using hi⟩

/-- C5: for every stream whose snapshot is already initialized (`some`),
a desktop notification is emitted in a cycle iff the computed "new since
previous snapshot" set of that cycle is non-empty and the stream's toggle
is enabled.  The result type `Option NotifMsg` carries the "exactly one
per stream per cycle" part: each handler has a single
`show_notification` call site, executed at most once per invocation. -/
theorem C5_notifies_iff_new_and_enabled :
    ∀ (prefs : Prefs) (prevF : Finset Nat) (prevN : Finset String)
      (prevS prevW : List (Nat × String))
      (feed : List Event) (notifs : List Notif) (starred watched : List Repo),
      ((check_and_notify_feed prefs (some prevF) feed).2 ≠ none ↔
        prefs.notify_activity = true ∧ (feedKeys feed \ prevF).Nonempty) ∧
      ((check_and_notify_notifications prefs (some prevN) notifs).2 ≠ none ↔
        prefs.notify_notifications = true ∧
          (unreadKeys notifs \ prevN).Nonempty) ∧
      ((check_and_notify_starred prefs (some prevS) starred).2 ≠ none ↔
        prefs.notify_starred = true ∧ pushUpdated prevS starred ≠ []) ∧
      ((check_and_notify_watched prefs (some prevW) watched).2 ≠ none ↔
        prefs.notify_watched = true ∧ pushUpdated prevW watched ≠ []) := by
  intro prefs prevF prevN prevS prevW feed notifs starred watched
  refine ⟨?_, ?_, ?_, ?_⟩
  · cases h : prefs.notify_activity
    · simp [check_and_notify_feed, h]
    · by_cases hd : feedKeys feed \ prevF = ∅
      · simp [check_and_notify_feed, h, hd, Finset.nonempty_iff_ne_empty]
      · have hs := feed_find_isSome feed prevF (Finset.nonempty_iff_ne_empty.mpr hd)
        simp only [check_and_notify_feed, h, Bool.not_true, Bool.false_eq_true,
          if_false, hd, ite_false, ne_eq, Option.map_eq_none']
        constructor
        · intro _
          exact ⟨trivial, Finset.nonempty_iff_ne_empty.mpr hd⟩
        · intro _
          rw [List.find?_isSome] at hs
          simpa using hs
  · cases h : prefs.notify_notifications
    · simp [check_and_notify_notifications, h]
    · by_cases hd : unreadKeys notifs \ prevN = ∅
      · simp [check_and_notify_notifications, h, hd, Finset.nonempty_iff_ne_empty]
      · have hs := notif_find_isSome notifs prevN (Finset.nonempty_iff_ne_empty.mpr hd)
        simp only [check_and_notify_notifications, h, Bool.not_true,
          Bool.false_eq_true, if_false, hd, ite_false, ne_eq, Option.map_eq_none']
        constructor
        · intro _
          exact ⟨trivial, Finset.nonempty_iff_ne_empty.mpr hd⟩
        · intro _
          rw [List.find?_isSome] at hs
          simpa using hs
  · cases h : prefs.notify_starred
    · simp [check_and_notify_starred, h]
    · cases hpu : pushUpdated prevS starred <;>
        simp [check_and_notify_starred, h, hpu]
  · cases h : prefs.notify_watched
    · simp [check_and_notify_watched, h]
    · cases hpu : pushUpdated prevW watched <;>
        simp [check_and_notify_watched, h, hpu]

/-- C6: for the timestamp-paired streams, the notified set is computed by
ID-match-then-timestamp-compare.  First conjunct: whenever the prior
snapshot holds at most one key per repository id (which every snapshot
the code builds does), a fetched repository is collected into
`updated_repos` exactly when its id was present in the prior snapshot
paired with a different (id, last-push-timestamp-string) key; a
repository whose id was absent from the prior snapshot is never
collected.  Second conjunct is the spec's Scenario B: prior snapshot
`{(5, "2024-01-01T00:00:00Z")}`, fetch returning repo 5 with timestamp
`"2024-01-02T00:00:00Z"` and toggle enabled fires exactly one
notification naming repo 5's full name, and the snapshot becomes the new
pair. -/
theorem C6_id_match_then_timestamp_compare :
    (∀ (prev : List (Nat × String)) (repos : List Repo) (r : Repo),
        prev.Pairwise (fun a b => a.1 ≠ b.1) →
        (r ∈ pushUpdated prev repos ↔
          r ∈ repos ∧ ∃ k ∈ prev, k.1 = r.id ∧ k ≠ repoKey r)) ∧
    check_and_notify_starred ⟨false, false, true, false⟩
        (some [(5, "2024-01-01T00:00:00Z")])
        [⟨5, some "2024-01-02T00:00:00Z", "owner/repo"⟩]
      = (some [(5, "2024-01-02T00:00:00Z")],
         some ⟨"1 starred repo updated", "owner/repo"⟩) := by
  constructor
  · intro prev repos r hprev
    rw [pushUpdated, List.mem_filter]
    refine and_congr_right fun _ => ?_
    cases hfind : prev.find? (fun k => decide (k.1 = r.id)) with
    | none =>
      rw [List.find?_eq_none] at hfind
      constructor
      · intro h
        cases h
      · rintro ⟨k, hk, hkid, -⟩
        exact absurd (by simpa using hkid) (by simpa using hfind k hk)
    | some k0 =>
      have hk0mem : k0 ∈ prev := List.mem_of_find?_eq_some hfind
      have hk0id : k0.1 = r.id := by simpa using List.find?_some hfind
      simp only [hfind, decide_eq_true_eq]
      constructor
      · intro hne
        exact ⟨k0, hk0mem, hk0id, hne⟩
      · rintro ⟨k, hk, hkid, hkne⟩
        by_cases hkk : k = k0
        · subst hkk
          exact hkne
        · exfalso
          have hsym : Symmetric (fun a b : Nat × String => a.1 ≠ b.1) :=
            fun _ _ h => Ne.symm h
          exact (hprev.forall hsym hk hk0mem hkk) (hkid.trans hk0id.symm)
  · rfl

/-- Witness for C6: instantiates the general conjunct at the Scenario B
snapshot, discharging the one-key-per-id hypothesis by computation: the
repo with id 5 whose timestamp changed is collected. -/
theorem C6_witness :
    (⟨5, some "2024-01-02T00:00:00Z", "owner/repo"⟩ : Repo) ∈
      pushUpdated [(5, "2024-01-01T00:00:00Z")]
        [⟨5, some "2024-01-02T00:00:00Z", "owner/repo"⟩] :=
  (C6_id_match_then_timestamp_compare.1
      [(5, "2024-01-01T00:00:00Z")]
      [⟨5, some "2024-01-02T00:00:00Z", "owner/repo"⟩]
      ⟨5, some "2024-01-02T00:00:00Z", "owner/repo"⟩
      (by decide)).mpr
    ⟨by decide, (5, "2024-01-01T00:00:00Z"), by decide, by decide, by decide⟩

/-! ## Account switching and the snapshot (`GUI/accounts.py`, `GUI/main.py`)

The four `_last_*_ids` snapshots are attributes of the single `MainGui`
window, created once at process start (`GUI/main.py:123-126`).
`AccountsDialog.on_switch` (`GUI/accounts.py:71-83`) assigns
`app.currentAccount = app.accounts[selection]` and calls
`window.refresh_all()`; it never touches the snapshot attributes.  The
refresh then fetches the *current* account's feed
(`self.app.currentAccount.get_received_events()`) and hands it to
`_check_and_notify_feed`, which diffs it against whatever snapshot the
window already holds.  The model below keeps the feed stream (the other
three streams behave identically). -/

/-- The window/application state visible to a feed refresh: the current
account (a slot index used to fetch that account's feed) and the one
shared `_last_feed_ids` attribute of the window. -/
structure SwitchState where
  currentAccount : Nat
  last_feed_ids : Option (Finset Nat)
  deriving DecidableEq

/-- Embeds `AccountsDialog.on_switch` as far as window state is concerned:
reassign `currentAccount`; the `_last_*_ids` attributes are not touched. -/
def on_switch (sel : Nat) (s : SwitchState) : SwitchState :=
  { s with currentAccount := sel }

/-- One feed refresh cycle: fetch the current account's feed and run
`_check_and_notify_feed` against the window's stored snapshot
(`_load_feed` → `_update_feed_list` → `_check_and_notify_feed`). -/
def refresh_feed (fetch : Nat → List Event) (prefs : Prefs) (s : SwitchState) :
    SwitchState × Option NotifMsg :=
  let res := check_and_notify_feed prefs s.last_feed_ids (fetch s.currentAccount)
  ({ s with last_feed_ids := res.1 }, res.2)

/-- The feed a concrete two-account deployment serves: account 0's feed
is the single event 1, account 1's feed is the single event 2. -/
def demoFetch : Nat → List Event :=
  fun a => if a = 0 then [⟨1, "a"⟩] else [⟨2, "b"⟩]

/-- All four toggles enabled. -/
def demoPrefs : Prefs := ⟨true, true, true, true⟩

/-- C3 counterexample: with two accounts, run the launch refresh for
account 0 (snapshot becomes `{1}`, account 0's data), switch to account 1
and refresh.  The switch leaves the snapshot at `{1}`, and the refresh
diffs account 1's fetch `{2}` against it and emits a notification — so
the snapshot a refresh diffs against after an account switch *is* one
built from the previous account's data, refuting the claim that
snapshots are kept per account and never shared across accounts (under
which account 1's first cycle would initialize its own snapshot and emit
nothing). -/
theorem C3_counterexample_snapshot_shared_across_accounts :
    (on_switch 1 (refresh_feed demoFetch demoPrefs ⟨0, none⟩).1).last_feed_ids
        = some {1} ∧
    (refresh_feed demoFetch demoPrefs
        (on_switch 1 (refresh_feed demoFetch demoPrefs ⟨0, none⟩).1)).2
        ≠ none := by
  constructor
  · rfl
  · intro h
    exact Option.noConfusion h

/-- C3 amended: the per-stream snapshots are held once, on the main
window, and shared across accounts: switching the current account leaves
every snapshot unchanged, so the first refresh after a switch diffs the
new account's fetch against the snapshot built from the previously
current account's data (the same comparison `_check_and_notify_feed`
would make without the switch). -/
theorem C3_amended_switch_preserves_shared_snapshot :
    ∀ (sel : Nat) (s : SwitchState) (fetch : Nat → List Event) (prefs : Prefs),
      (on_switch sel s).last_feed_ids = s.last_feed_ids ∧
      (refresh_feed fetch prefs (on_switch sel s)).2
          = (check_and_notify_feed prefs s.last_feed_ids (fetch sel)).2 := by
  intro sel s fetch prefs
  exact ⟨rfl, rfl⟩

/-! ## Session registry (`application.py`, `GUI/accounts.py`)

`Application` holds `accounts` (ordered list of `GitHubAccount` objects),
`currentAccount` (an element of that list or `None`), the persisted
per-slot credential folders `confpath/account{i}`, and the persisted
account count `prefs.accounts`.  Account objects are modeled by opaque
numeric identities (Python compares them with `==`, which for these
objects is identity).  A credential folder is modeled by its content, an
opaque `Nat`; `stores i = none` means the folder `account{i}` does not
exist on disk.  Credential persistence performed inside the
`GitHubAccount` constructor is not modeled — no claim depends on it. -/

/-- Registry state: `Application.accounts`, `Application.currentAccount`,
the on-disk `account{i}` folders, and `prefs.accounts`. -/
structure RegState where
  accounts : List Nat
  currentAccount : Option Nat
  stores : Nat → Option Nat
  prefsAccounts : Nat

/-- One iteration of the folder-shift loop in
`Application.remove_account` (`application.py:169-174`): if folder
`account{j}` exists, `shutil.move` it to `account{j-1}` (the destination
was vacated by the previous iteration or the initial `rmtree`, so the
move is a plain rename). -/
def shiftStoresDown (stores : Nat → Option Nat) (j : Nat) : Nat → Option Nat :=
  if (stores j).isSome then
    fun i => if i = j - 1 then stores j else if i = j then none else stores i
  else stores

/-- Embeds `Application.remove_account` (`application.py:151-182`).  The index
comes from the UI as a Python `int`; the guard rejects `index < 0` and
`index >= len(self.accounts)` with no state change.  Otherwise: pop the
account, delete folder `account{index}`, shift folders
`account{index+1} .. account{prefs.accounts - 1}` down one slot,
decrement `prefs.accounts`, and reassign `currentAccount` if it was the
removed account. -/
def remove_account (s : RegState) (index : Int) : Bool × RegState :=
  if index < 0 ∨ (s.accounts.length : Int) ≤ index then (false, s)
  else
    let k := index.toNat
    let removed := s.accounts.getD k 0
    let accounts1 := s.accounts.eraseIdx k
    let stores1 : Nat → Option Nat := fun i => if i = k then none else s.stores i
    let stores2 := (List.range' (k + 1) (s.prefsAccounts - (k + 1))).foldl
      shiftStoresDown stores1
    let current1 :=
      if s.currentAccount = some removed then accounts1.head?
      else s.currentAccount
    (true, ⟨accounts1, current1, stores2, s.prefsAccounts - 1⟩)

/-- Outcome of constructing a `GitHubAccount` for a slot: the constructor
either returns a ready account object or raises
`AccountSetupCancelled`. -/
inductive SetupOutcome where
  | ok (account : Nat)
  | cancelled
  deriving DecidableEq, Repr

/-- Embeds `Application.add_session` (`application.py:123-138`).  On success the
account is appended and becomes current when no current account was set.
`AccountSetupCancelled` is caught inside the method: with zero existing
accounts it schedules an application exit (the returned flag), otherwise
it is swallowed and the method returns normally with no state change. -/
def add_session (s : RegState) (outcome : SetupOutcome) : RegState × Bool :=
  match outcome with
  | .ok a =>
    ({ s with
        accounts := s.accounts ++ [a]
        currentAccount :=
          match s.currentAccount with
          | none => some a
          | some c => some c },
     false)
  | .cancelled =>
    if s.accounts.length = 0 then (s, true) else (s, false)

/-- The registry part of `AccountsDialog.on_switch`
(`GUI/accounts.py:71-83`): with a valid list selection, point
`currentAccount` at the selected member; `wx.NOT_FOUND` returns with no
change (the list box shows exactly the registry's accounts, so every
real selection is in range). -/
def switch_account (s : RegState) (sel : Nat) : RegState :=
  if sel < s.accounts.length then
    { s with currentAccount := some (s.accounts.getD sel 0) }
  else s

/-- Embeds `AccountsDialog.on_add` (`GUI/accounts.py:85-99`): increment the
persisted `prefs.accounts`, then call `add_session(len(accounts))`.  The
dialog's `except` branch (which rolls the increment back) can only run
when `add_session` raises; `add_session` catches `AccountSetupCancelled`
itself, so a cancelled setup leaves the increment in place. -/
def on_add (s : RegState) (outcome : SetupOutcome) : RegState × Bool :=
  add_session { s with prefsAccounts := s.prefsAccounts + 1 } outcome

/-! ## Theorems: session registry -/

/-- One shift step, written as a pointwise update: given that the
destination slot `k` is already vacant (the previous iteration or the
initial `rmtree` emptied it), moving folder `k+1` down is the rename
`k ↦ old k+1, k+1 ↦ gone`, whether or not folder `k+1` exists. -/
lemma shiftStoresDown_eq (s0 : Nat → Option Nat) (k : Nat) (h0 : s0 k = none) :
    shiftStoresDown s0 (k + 1) =
      fun j => if j = k then s0 (k + 1) else if j = k + 1 then none else s0 j := by
  funext j
  rw [shiftStoresDown]
  rcases hs : s0 (k + 1) with _ | v
  · simp only [hs, Option.isSome_none, Bool.false_eq_true, if_false]
    split_ifs with h1 h2
    · rw [h1, h0]
    · rw [h2, hs]
    · rfl
  · simp only [hs, Option.isSome_some, if_true]
    norm_num

/-- Effect of the whole folder-shift loop `for j in range(k+1, k+1+m)`:
starting from a store map whose slot `k` is vacant, every slot in
`[k, k+m)` receives the old content of the slot above it, slot `k+m`
ends vacant, and all other slots are untouched. -/
lemma shift_spec : ∀ (m k : Nat) (s0 : Nat → Option Nat), s0 k = none →
    ∀ i, (List.range' (k + 1) m).foldl shiftStoresDown s0 i =
      if k ≤ i ∧ i < k + m then s0 (i + 1)
      else if i = k + m then none
      else s0 i := by
  intro m
  induction m with
  | zero =>
    intro k s0 h0 i
    simp only [List.range', List.foldl]
    rcases Nat.lt_trichotomy i k with h | h | h
    · rw [if_neg (by omega), if_neg (by omega)]
    · rw [if_neg (by omega), if_pos (by omega), h, h0]
    · rw [if_neg (by omega), if_neg (by omega)]
  | succ m ih =>
    intro k s0 h0 i
    rw [List.range'_succ, List.foldl_cons, shiftStoresDown_eq s0 k h0,
      ih (k + 1) _ (by simp)]
    split_ifs <;> first
      | rfl
      | omega
      | (rw [h0])
      | simp_all

/-- Evaluation of `remove_account` on an in-range index, with the guard discharged and
the Python `int` index converted. -/
lemma remove_account_in_range (s : RegState) (k : Nat)
    (hk : k < s.accounts.length) :
    remove_account s (k : Int) =
      (true,
       ⟨s.accounts.eraseIdx k,
        if s.currentAccount = some (s.accounts.getD k 0)
          then (s.accounts.eraseIdx k).head? else s.currentAccount,
        (List.range' (k + 1) (s.prefsAccounts - (k + 1))).foldl shiftStoresDown
          (fun i => if i = k then none else s.stores i),
        s.prefsAccounts - 1⟩) := by
  rw [remove_account, if_neg (by omega)]
  simp only [Int.toNat_natCast]

/-- An element other than the one at the erased position survives
`eraseIdx`. -/
lemma mem_eraseIdx_of_ne_getD (l : List Nat) (k : Nat) (hk : k < l.length)
    (c : Nat) (hc : c ∈ l) (hne : c ≠ l.getD k 0) : c ∈ l.eraseIdx k := by
  rw [List.mem_eraseIdx_iff_getElem]
  rw [List.mem_iff_getElem] at hc
  obtain ⟨p, hp, rfl⟩ := hc
  have hpk : p ≠ k := by
    intro h
    subst h
    exact hne (by rw [List.getD_eq_getElem l 0 hk])
  exact ⟨p, hp, hpk, rfl⟩

/-- C7: removing a valid slot `k` from a registry of `N` accounts (with
the persisted count in sync, `prefs.accounts = N`) returns success,
removes exactly the `k`-th account from the ordered list, decrements the
persisted count to `N - 1`, leaves the stores below `k` unchanged,
relocates every store at a slot in `[k+1, N)` to the slot below (so the
store formerly at `k+1` is afterwards reachable at `k`), vacates slot
`N - 1`, and touches no slot at or above `N` — so occupied slots
`0..N-1` become occupied slots `0..N-2`.  An out-of-range index (negative
or `≥ N`) returns `False` with the state unchanged. -/
theorem C7_remove_account_relocation :
    ∀ (s : RegState) (k : Nat) (i : Int),
      (k < s.accounts.length → s.prefsAccounts = s.accounts.length →
        (remove_account s (k : Int)).1 = true ∧
        (remove_account s (k : Int)).2.accounts
            = s.accounts.take k ++ s.accounts.drop (k + 1) ∧
        (remove_account s (k : Int)).2.prefsAccounts
            = s.accounts.length - 1 ∧
        (∀ j, j < k → (remove_account s (k : Int)).2.stores j = s.stores j) ∧
        (∀ j, k ≤ j → j < s.accounts.length - 1 →
          (remove_account s (k : Int)).2.stores j = s.stores (j + 1)) ∧
        (remove_account s (k : Int)).2.stores (s.accounts.length - 1) = none ∧
        (∀ j, s.accounts.length ≤ j →
          (remove_account s (k : Int)).2.stores j = s.stores j)) ∧
      ((i < 0 ∨ (s.accounts.length : Int) ≤ i) →
        remove_account s i = (false, s)) := by
  intro s k i
  constructor
  · intro hk hsync
    rw [remove_account_in_range s k hk]
    have hshift := shift_spec (s.prefsAccounts - (k + 1)) k
      (fun i => if i = k then none else s.stores i) (by simp)
    have hkm : k + (s.prefsAccounts - (k + 1)) = s.accounts.length - 1 := by
      omega
    refine ⟨rfl, ?_, ?_, ?_, ?_, ?_, ?_⟩
    · exact List.eraseIdx_eq_take_drop_succ s.accounts k
    · simpa using by omega
    · intro j hj
      show (List.range' (k + 1) (s.prefsAccounts - (k + 1))).foldl shiftStoresDown
        (fun i => if i = k then none else s.stores i) j = s.stores j
      rw [hshift j, if_neg (by omega), if_neg (by omega)]
      exact if_neg (by omega)
    · intro j hj1 hj2
      show (List.range' (k + 1) (s.prefsAccounts - (k + 1))).foldl shiftStoresDown
        (fun i => if i = k then none else s.stores i) j = s.stores (j + 1)
      rw [hshift j, if_pos ⟨hj1, by omega⟩]
      exact if_neg (by omega)
    · show (List.range' (k + 1) (s.prefsAccounts - (k + 1))).foldl shiftStoresDown
        (fun i => if i = k then none else s.stores i) (s.accounts.length - 1) = none
      rw [hshift (s.accounts.length - 1), if_neg (by omega), if_pos (by omega)]
    · intro j hj
      show (List.range' (k + 1) (s.prefsAccounts - (k + 1))).foldl shiftStoresDown
        (fun i => if i = k then none else s.stores i) j = s.stores j
      rw [hshift j, if_neg (by omega), if_neg (by omega)]
      exact if_neg (by omega)
  · intro hrange
    rw [remove_account, if_pos hrange]

/-- Witness for C7: a three-account registry with stores 100/101/102 at
slots 0/1/2; removing slot 1 succeeds and the store formerly at slot 2
(content 102) is afterwards reachable at slot 1, while slot 0 keeps 100
and slot 2 is vacated. -/
theorem C7_witness :
    (1 < ([10, 11, 12] : List Nat).length ∧ (3 : Nat) = 3) ∧
    (remove_account
        ⟨[10, 11, 12], some 10, fun i => if i < 3 then some (100 + i) else none, 3⟩
        (1 : Int)).2.stores 1 = some 102 ∧
    (remove_account
        ⟨[10, 11, 12], some 10, fun i => if i < 3 then some (100 + i) else none, 3⟩
        (1 : Int)).2.stores 0 = some 100 ∧
    (remove_account
        ⟨[10, 11, 12], some 10, fun i => if i < 3 then some (100 + i) else none, 3⟩
        (1 : Int)).2.stores 2 = none := by
  refine ⟨⟨by decide, rfl⟩, ?_, ?_, ?_⟩
  · exact ((C7_remove_account_relocation
      ⟨[10, 11, 12], some 10, fun i => if i < 3 then some (100 + i) else none, 3⟩
      1 0).1 (by decide) rfl).2.2.2.2.1 1 (by decide) (by decide)
  · exact ((C7_remove_account_relocation
      ⟨[10, 11, 12], some 10, fun i => if i < 3 then some (100 + i) else none, 3⟩
      1 0).1 (by decide) rfl).2.2.2.1 0 (by decide)
  · exact ((C7_remove_account_relocation
      ⟨[10, 11, 12], some 10, fun i => if i < 3 then some (100 + i) else none, 3⟩
      1 0).1 (by decide) rfl).2.2.2.2.2.1

/-- The Session Registry invariant: a null current account means an empty
account list, and a non-null current account is a member of the list. -/
def registryInv (s : RegState) : Prop :=
  match s.currentAccount with
  | none => s.accounts = []
  | some c => c ∈ s.accounts

/-- C8: every registry operation preserves the invariant "if the account
list is non-empty, `currentAccount` references a member; if empty,
`currentAccount` is null" — covering `add_session` (either outcome),
`remove_account` (any index) and switching.  In addition: removing the
only remaining account yields an empty registry with a null current
account, and removing the account that was current reassigns current to
the first remaining account (`accounts[0] if accounts else None`). -/
theorem C8_current_account_invariant :
    ∀ (s : RegState), registryInv s →
      (∀ outcome, registryInv (add_session s outcome).1) ∧
      (∀ i : Int, registryInv (remove_account s i).2) ∧
      (∀ sel : Nat, registryInv (switch_account s sel)) ∧
      (∀ a : Nat, s.accounts = [a] →
        (remove_account s 0).2.accounts = [] ∧
        (remove_account s 0).2.currentAccount = none) ∧
      (∀ k : Nat, k < s.accounts.length →
        s.currentAccount = some (s.accounts.getD k 0) →
        (remove_account s (k : Int)).2.currentAccount
            = (s.accounts.eraseIdx k).head?) := by
  intro s hinv
  refine ⟨?_, ?_, ?_, ?_, ?_⟩
  · intro outcome
    cases outcome with
    | ok a =>
      rw [registryInv] at hinv
      cases hc : s.currentAccount with
      | none =>
        simp only [add_session, hc, registryInv]
        exact List.mem_append_right _ (List.mem_singleton_self a)
      | some c =>
        rw [hc] at hinv
        simp only [add_session, hc, registryInv]
        exact List.mem_append_left _ hinv
    | cancelled =>
      by_cases h : s.accounts.length = 0 <;>
        simp only [add_session, h, if_pos, if_neg, ite_true, ite_false] <;>
        exact hinv
  · intro i
    by_cases hrange : i < 0 ∨ (s.accounts.length : Int) ≤ i
    · rw [remove_account, if_pos hrange]
      exact hinv
    · have hk : i.toNat < s.accounts.length := by omega
      have hi : i = ((i.toNat : Nat) : Int) := by omega
      rw [hi, remove_account_in_range s i.toNat hk]
      by_cases hcur : s.currentAccount = some (s.accounts.getD i.toNat 0)
      · cases hE : s.accounts.eraseIdx i.toNat with
        | nil => simp [registryInv, hcur, hE]
        | cons h t => simp [registryInv, hcur, hE]
      · rw [registryInv] at hinv ⊢
        cases hc : s.currentAccount with
        | none =>
          rw [hc] at hinv
          exact absurd hk (by rw [hinv]; simp)
        | some c =>
          rw [hc] at hinv
          simp only [hc, if_neg (hc ▸ hcur)]
          exact mem_eraseIdx_of_ne_getD s.accounts i.toNat hk c hinv
            (fun h => hcur (hc.trans (congrArg some h)))
  · intro sel
    rw [switch_account]
    by_cases h : sel < s.accounts.length
    · rw [if_pos h, registryInv]
      rw [List.getD_eq_getElem s.accounts 0 h]
      exact List.getElem_mem h
    · rw [if_neg h]
      exact hinv
  · intro a ha
    have h0 : 0 < s.accounts.length := by rw [ha]; simp
    have h00 : (0 : Int) = ((0 : Nat) : Int) := rfl
    rw [h00, remove_account_in_range s 0 h0]
    rw [registryInv] at hinv
    constructor
    · rw [ha]
      rfl
    · cases hc : s.currentAccount with
      | none =>
        have h2 : s.accounts = [] := by rw [hc] at hinv; exact hinv
        rw [ha] at h2
        cases h2
      | some c =>
        have hc2 : c ∈ s.accounts := by rw [hc] at hinv; exact hinv
        have hca : c = a := by rw [ha] at hc2; simpa using hc2
        subst hca
        show (if some c = some (s.accounts.getD 0 0)
          then (s.accounts.eraseIdx 0).head? else some c) = none
        rw [ha, show ([c].getD 0 0 : Nat) = c from rfl, if_pos rfl]
        rfl
  · intro k hk hcur
    rw [remove_account_in_range s k hk]
    simp only [if_pos hcur]

/-- Witness for C8: a one-account registry satisfying the invariant;
removing that (current) account leaves a null current account. -/
theorem C8_witness :
    registryInv (⟨[7], some 7, fun _ => none, 1⟩ : RegState) ∧
    (remove_account (⟨[7], some 7, fun _ => none, 1⟩ : RegState) 0).2.currentAccount
        = none :=
  ⟨by show (7 : Nat) ∈ [7]; simp,
   ((C8_current_account_invariant ⟨[7], some 7, fun _ => none, 1⟩
       (by show (7 : Nat) ∈ [7]; simp)).2.2.2.1 7 rfl).2⟩

/-- C10: with at least one existing account and the persisted count in
sync, a cancelled add-account action leaves the account list, the
current account and the exit signal untouched, but the persisted count —
incremented by the dialog before the attempt — is not rolled back: it
ends one greater than the number of live accounts, because `add_session`
swallows `AccountSetupCancelled`, so the dialog's decrement-on-failure
branch never runs. -/
theorem C10_cancelled_add_retains_increment :
    ∀ (s : RegState), s.accounts ≠ [] → s.prefsAccounts = s.accounts.length →
      (on_add s .cancelled).1.accounts = s.accounts ∧
      (on_add s .cancelled).1.currentAccount = s.currentAccount ∧
      (on_add s .cancelled).2 = false ∧
      (on_add s .cancelled).1.prefsAccounts
          = (on_add s .cancelled).1.accounts.length + 1 := by
  intro s hne hsync
  have hlen : ¬ s.accounts.length = 0 := fun h => hne (List.length_eq_zero.mp h)
  simp only [on_add, add_session]
  rw [if_neg hlen]
  exact ⟨rfl, rfl, rfl, by simp [hsync]⟩

/-- Witness for C10: cancelling an add on a live one-account registry
with persisted count 1 leaves the persisted count at 2, one more than
the single live account. -/
theorem C10_witness :
    ((([7] : List Nat) ≠ []) ∧ (1 : Nat) = ([7] : List Nat).length) ∧
    (on_add (⟨[7], some 7, fun _ => none, 1⟩ : RegState) .cancelled).1.prefsAccounts
        = (on_add (⟨[7], some 7, fun _ => none, 1⟩ : RegState)
            .cancelled).1.accounts.length + 1 :=
  ⟨⟨by decide, rfl⟩,
   (C10_cancelled_add_retains_increment ⟨[7], some 7, fun _ => none, 1⟩
       (by decide) rfl).2.2.2⟩

/-! ## Account API methods (`github_api.py`)

The Account methods issue HTTP requests through `requests.Session` with
no `try/except` anywhere in `github_api.py` (the sole exception handler
in the file guards a local file write in `download_release_asset`).  A
call on the session either returns a response object carrying a status
code and a JSON body, or raises (timeout, connection error); a body that
fails to parse makes `response.json()` raise, which propagates the same
way, so both are modeled as a raised transport fault.  Mapping a JSON
object through `Repository.from_github_api` is modeled as the identity
on the already-typed record. -/

/-- A fault raised by the `requests` layer (or by `response.json()`). -/
inductive HttpFault where
  | timeout
  | connectionError
  | malformedResponse
  deriving DecidableEq, Repr

/-- One HTTP exchange: the call either raises a fault or returns a
response with a status code and a parsed body. -/
inductive HttpResp (α : Type) where
  | raise (e : HttpFault)
  | ok (status : Nat) (body : α)
  deriving DecidableEq, Repr

/-- Whether the exchange raised. -/
def HttpResp.isRaise {α : Type} : HttpResp α → Bool
  | .raise _ => true
  | .ok _ _ => false

/-- The pagination loop of `GitHubAccount.get_repos`
(`github_api.py:236-262`): one response per requested page; a non-`200`
status or an empty body breaks the loop, a short page (fewer than
`per_page` items) ends it after appending, and a raised fault propagates
out of the method (there is no handler).  An exhausted trace models
cutting the run short and yields the rows fetched so far. -/
def get_repos_loop (perPage : Nat) (repos : List Repo)
    (pages : List (HttpResp (List Repo))) : Except HttpFault (List Repo) :=
  match pages with
  | [] => .ok repos
  | resp :: rest =>
    match resp with
    | .raise e => .error e
    | .ok status data =>
      if status ≠ 200 then .ok repos
      else if data = [] then .ok repos
      else if data.length < perPage then .ok (repos ++ data)
      else get_repos_loop perPage (repos ++ data) rest

/-- Embeds `GitHubAccount.get_repos` (`github_api.py:231-263`) against a
transport trace. -/
def get_repos (perPage : Nat) (pages : List (HttpResp (List Repo))) :
    Except HttpFault (List Repo) :=
  get_repos_loop perPage [] pages

/-- Embeds `GitHubAccount.get_repo` (`github_api.py:335-344`): a single request;
a non-`200` status is converted to the `None` sentinel, a raised fault
propagates. -/
def get_repo (resp : HttpResp Repo) : Except HttpFault (Option Repo) :=
  match resp with
  | .raise e => .error e
  | .ok status body => if status ≠ 200 then .ok none else .ok (some body)

/-- C2 counterexample: a timeout raised by the HTTP layer on the first
page propagates out of `get_repos` (and out of `get_repo`) as a fault
instead of being converted to the empty-list / `None` sentinel —
refuting the claim that every network failure is caught at the Account
method boundary.  (The GUI callers, e.g. `_load_feed` in `GUI/main.py`,
wrap these calls in `try/except` precisely because the faults escape.) -/
theorem C2_counterexample_fault_propagates :
    get_repos 100 [.raise .timeout] = .error .timeout ∧
    get_repos 100 [.raise .timeout] ≠ .ok [] ∧
    get_repo (.raise .timeout) = .error .timeout ∧
    get_repo (.raise .timeout) ≠ .ok none := by
  refine ⟨rfl, ?_, rfl, ?_⟩
  · intro h
    exact Except.noConfusion h
  · intro h
    exact Except.noConfusion h

/-- C2 amended: the Account methods convert every *non-success status
code* to the failure sentinel and never raise on their own — whenever
the transport itself does not raise, `get_repos` returns a list (a
non-200 first page yields the empty list) and `get_repo` returns
`some`/`none` — but a fault raised by the HTTP layer (timeout,
connection error, malformed response) is not caught and propagates to
the caller, which the UI layer handles. -/
theorem C2_amended_status_to_sentinel_fault_propagates :
    (∀ (perPage : Nat) (pages : List (HttpResp (List Repo))),
        (∀ p ∈ pages, p.isRaise = false) →
        ∃ l, get_repos perPage pages = .ok l) ∧
    (∀ (perPage status : Nat) (data : List Repo)
        (rest : List (HttpResp (List Repo))), status ≠ 200 →
        get_repos perPage (.ok status data :: rest) = .ok []) ∧
    (∀ (status : Nat) (body : Repo),
        get_repo (.ok status body)
          = if status = 200 then .ok (some body) else .ok none) := by
  have hloop : ∀ (pages : List (HttpResp (List Repo))) (perPage : Nat)
      (acc : List Repo), (∀ p ∈ pages, p.isRaise = false) →
      ∃ l, get_repos_loop perPage acc pages = .ok l := by
    intro pages
    induction pages with
    | nil =>
      intro perPage acc h
      exact ⟨acc, rfl⟩
    | cons p rest ih =>
      intro perPage acc h
      cases p with
      | raise e => exact absurd (h _ (List.mem_cons_self _ _)) (by simp [HttpResp.isRaise])
      | ok status data =>
        rw [get_repos_loop]
        split_ifs with h1 h2 h3
        · exact ⟨acc, rfl⟩
        · exact ⟨acc, rfl⟩
        · exact ⟨acc ++ data, rfl⟩
        · exact ih perPage (acc ++ data)
            (fun q hq => h q (List.mem_cons_of_mem _ hq))
  refine ⟨fun perPage pages h => hloop pages perPage [] h, ?_, ?_⟩
  · intro perPage status data rest hst
    rw [get_repos, get_repos_loop, if_pos hst]
  · intro status body
    rw [get_repo]
    by_cases h : status = 200
    · rw [if_pos h, if_neg (by omega)]
    · rw [if_neg h, if_pos h]

/-- Witness for C2 (amended): a fault-free two-page trace — a full page
of one row (with `per_page = 1`) followed by an empty page — produces a
list result, no raised fault. -/
theorem C2_witness :
    (∀ p ∈ ([.ok 200 [⟨1, none, "r"⟩], .ok 200 []] :
        List (HttpResp (List Repo))), p.isRaise = false) ∧
    ∃ l, get_repos 1 [.ok 200 [⟨1, none, "r"⟩], .ok 200 []] = .ok l :=
  ⟨by decide,
   C2_amended_status_to_sentinel_fault_propagates.1 1
     [.ok 200 [⟨1, none, "r"⟩], .ok 200 []] (by decide)⟩

/-! ## Commit pagination (`GitHubAccount.get_commits`)

`get_commits` (`github_api.py:653-702`) pages through
`/repos/{owner}/{repo}/commits`.  The transport here is the well-behaved
server: page `p` of the full history `remaining` is the slice
`(remaining.drop ((p-1)*per_page)).take per_page`, always with status
200 (the non-200 and raised-fault paths are the same breaks modeled in
`get_repos`; C9 concerns the limit/pagination logic on successful
pages).  The result carries the number of page requests issued. -/

/-- The inner `for item in data` loop (`github_api.py:691-695`): append
one commit at a time and return early — `True` — the moment
`max_commits` (when positive) is reached, even mid-page. -/
def appendCommits (maxCommits : Nat) (commits data : List Commit) :
    List Commit × Bool :=
  match data with
  | [] => (commits, false)
  | item :: rest =>
    let commits1 := commits ++ [item]
    if 0 < maxCommits ∧ maxCommits ≤ commits1.length then (commits1, true)
    else appendCommits maxCommits commits1 rest

/-- The `while True` pagination loop of `get_commits`: fetch the current
page (a slice of `remaining`, consumed from the front), stop on an empty
page, stop mid-page when the inner loop hits the limit, stop after a
short page, otherwise request the next page. -/
def get_commits_loop (perPage maxCommits : Nat) (commits remaining : List Commit)
    (requests : Nat) : List Commit × Nat :=
  if h1 : remaining.take perPage = [] then (commits, requests + 1)
  else
    match appendCommits maxCommits commits (remaining.take perPage) with
    | (commits1, true) => (commits1, requests + 1)
    | (commits1, false) =>
      if h2 : (remaining.take perPage).length < perPage then
        (commits1, requests + 1)
      else
        get_commits_loop perPage maxCommits commits1 (remaining.drop perPage)
          (requests + 1)
termination_by remaining.length
decreasing_by
  simp only [List.length_drop]
  have h3 : (remaining.take perPage).length ≠ 0 :=
    fun h => h1 (List.length_eq_zero.mp h)
  rw [List.length_take] at h2 h3
  omega

/-- Embeds `GitHubAccount.get_commits` against the full history `all`, with the
source's `per_page` optimization (`github_api.py:667-668`): when a
positive `max_commits` is below `per_page`, request pages of exactly
`max_commits` items. -/
def get_commits (all : List Commit) (perPage maxCommits : Nat) :
    List Commit × Nat :=
  let pp := if 0 < maxCommits ∧ maxCommits < perPage then maxCommits else perPage
  get_commits_loop pp maxCommits [] all 0

/-- With no limit, the inner loop appends the whole page and reports no
early stop. -/
lemma appendCommits_zero : ∀ (data acc : List Commit),
    appendCommits 0 acc data = (acc ++ data, false) := by
  intro data
  induction data with
  | nil =>
    intro acc
    simp [appendCommits]
  | cons item rest ih =>
    intro acc
    rw [appendCommits]
    simp only [Nat.lt_irrefl, false_and, if_false]
    rw [ih]
    simp

/-- With a positive limit not yet reached, the inner loop either fills
up to the limit and stops early, or appends the whole page. -/
lemma appendCommits_spec : ∀ (data : List Commit) (maxC : Nat) (acc : List Commit),
    0 < maxC → acc.length < maxC →
    appendCommits maxC acc data =
      if maxC ≤ acc.length + data.length
      then (acc ++ data.take (maxC - acc.length), true)
      else (acc ++ data, false) := by
  intro data
  induction data with
  | nil =>
    intro maxC acc hm hacc
    rw [appendCommits, if_neg (by simp; omega)]
    simp
  | cons item rest ih =>
    intro maxC acc hm hacc
    rw [appendCommits]
    by_cases hhit : maxC ≤ (acc ++ [item]).length
    · rw [if_pos ⟨hm, hhit⟩]
      simp only [List.length_append, List.length_cons, List.length_nil,
        List.length_singleton] at hhit ⊢
      rw [if_pos (by omega)]
      have hx : maxC - acc.length = 1 := by omega
      rw [hx]
      simp [List.take_cons]
    · rw [if_neg (fun hand => hhit hand.2)]
      simp only [List.length_append, List.length_nil, List.length_cons,
        List.length_singleton] at hhit
      rw [ih maxC (acc ++ [item]) hm (by simp; omega)]
      simp only [List.length_append, List.length_nil, List.length_singleton,
        List.length_cons]
      by_cases hc : maxC ≤ acc.length + (rest.length + 1)
      · rw [if_pos (by omega), if_pos (by omega)]
        have hy : maxC - acc.length = (maxC - (acc.length + 1)) + 1 := by omega
        rw [hy]
        simp [List.take_cons, List.append_assoc]
      · rw [if_neg (by omega), if_neg (by omega)]
        simp

/-- With a positive limit not yet reached, the pagination loop collects
exactly the next `maxC - acc.length` commits of the remaining history
(or all of them when fewer are available). -/
lemma get_commits_loop_limit (perPage maxC : Nat) (hpp : 0 < perPage)
    (hm : 0 < maxC) :
    ∀ (n : Nat) (remaining : List Commit), remaining.length ≤ n →
    ∀ (acc : List Commit) (req : Nat), acc.length < maxC →
    (get_commits_loop perPage maxC acc remaining req).1
      = acc ++ remaining.take (maxC - acc.length) := by
  intro n
  induction n with
  | zero =>
    intro remaining hlen acc req hacc
    have hnil : remaining = [] := List.length_eq_zero.mp (by omega)
    subst hnil
    rw [get_commits_loop]
    simp
  | succ n ih =>
    intro remaining hlen acc req hacc
    rw [get_commits_loop]
    by_cases h1 : remaining.take perPage = []
    · rw [dif_pos h1]
      have hnil : remaining = [] := by
        have hc := congrArg List.length h1
        rw [List.length_take] at hc
        simp only [List.length_nil] at hc
        exact List.length_eq_zero.mp (by omega)
      subst hnil
      simp
    · rw [dif_neg h1]
      by_cases hhit : maxC ≤ acc.length + (remaining.take perPage).length
      · rw [show appendCommits maxC acc (remaining.take perPage)
            = (acc ++ (remaining.take perPage).take (maxC - acc.length), true) by
          rw [appendCommits_spec _ maxC acc hm hacc, if_pos hhit]]
        show acc ++ (remaining.take perPage).take (maxC - acc.length)
          = acc ++ remaining.take (maxC - acc.length)
        rw [List.take_take]
        congr 1
        congr 1
        have hle : (remaining.take perPage).length ≤ perPage := by
          rw [List.length_take]
          omega
        omega
      · rw [show appendCommits maxC acc (remaining.take perPage)
            = (acc ++ remaining.take perPage, false) by
          rw [appendCommits_spec _ maxC acc hm hacc, if_neg hhit]]
        show (if (remaining.take perPage).length < perPage
            then (acc ++ remaining.take perPage, req + 1)
            else get_commits_loop perPage maxC (acc ++ remaining.take perPage)
              (remaining.drop perPage) (req + 1)).1
          = acc ++ remaining.take (maxC - acc.length)
        by_cases h2 : (remaining.take perPage).length < perPage
        · rw [if_pos h2]
          show acc ++ remaining.take perPage
            = acc ++ remaining.take (maxC - acc.length)
          have hrl : remaining.length < perPage := by
            rw [List.length_take] at h2
            omega
          rw [List.take_of_length_le (by omega),
            List.take_of_length_le
              (by rw [List.take_of_length_le (Nat.le_of_lt hrl)] at hhit; omega)]
        · rw [if_neg h2]
          have hdl : (remaining.take perPage).length = perPage := by
            rw [List.length_take] at h2 ⊢
            omega
          show (get_commits_loop perPage maxC (acc ++ remaining.take perPage)
            (remaining.drop perPage) (req + 1)).1
            = acc ++ remaining.take (maxC - acc.length)
          rw [ih (remaining.drop perPage) (by rw [List.length_drop]; omega)
            _ (req + 1) (by rw [List.length_append, hdl]; rw [hdl] at hhit; omega)]
          rw [List.append_assoc]
          congr 1
          rw [List.length_append, hdl]
          have hbig : maxC - acc.length = perPage + (maxC - acc.length - perPage) := by
            rw [hdl] at hhit
            omega
          rw [hbig, List.take_add]
          congr 2
          omega

/-- With no limit (`max_commits = 0`), the loop pages until the short or
empty page and collects the whole history. -/
lemma get_commits_loop_all (perPage : Nat) (hpp : 0 < perPage) :
    ∀ (n : Nat) (remaining : List Commit), remaining.length ≤ n →
    ∀ (acc : List Commit) (req : Nat),
    (get_commits_loop perPage 0 acc remaining req).1 = acc ++ remaining := by
  intro n
  induction n with
  | zero =>
    intro remaining hlen acc req
    have hnil : remaining = [] := List.length_eq_zero.mp (by omega)
    subst hnil
    rw [get_commits_loop]
    simp
  | succ n ih =>
    intro remaining hlen acc req
    rw [get_commits_loop]
    by_cases h1 : remaining.take perPage = []
    · rw [dif_pos h1]
      have hnil : remaining = [] := by
        have hc := congrArg List.length h1
        rw [List.length_take] at hc
        simp only [List.length_nil] at hc
        exact List.length_eq_zero.mp (by omega)
      subst hnil
      simp
    · rw [dif_neg h1, appendCommits_zero]
      show (if (remaining.take perPage).length < perPage
          then (acc ++ remaining.take perPage, req + 1)
          else get_commits_loop perPage 0 (acc ++ remaining.take perPage)
            (remaining.drop perPage) (req + 1)).1
        = acc ++ remaining
      by_cases h2 : (remaining.take perPage).length < perPage
      · rw [if_pos h2]
        show acc ++ remaining.take perPage = acc ++ remaining
        have hrl : remaining.length < perPage := by
          rw [List.length_take] at h2
          omega
        rw [List.take_of_length_le (by omega)]
      · rw [if_neg h2]
        rw [ih (remaining.drop perPage)
          (by rw [List.length_drop]; rw [List.length_take] at h2; omega)]
        rw [List.append_assoc, List.take_append_drop]

/-- Number of page requests the loop issues before a positive limit is
hit, when enough history remains: the ceiling of
`(maxC - acc.length) / perPage`. -/
lemma get_commits_loop_requests (perPage maxC : Nat) (hpp : 0 < perPage)
    (hm : 0 < maxC) :
    ∀ (n : Nat) (remaining : List Commit), remaining.length ≤ n →
    ∀ (acc : List Commit) (req : Nat), acc.length < maxC →
      maxC ≤ acc.length + remaining.length →
    (get_commits_loop perPage maxC acc remaining req).2
      = req + (maxC - acc.length + perPage - 1) / perPage := by
  intro n
  induction n with
  | zero =>
    intro remaining hlen acc req hacc htot
    have hnil : remaining = [] := List.length_eq_zero.mp (by omega)
    subst hnil
    simp only [List.length_nil] at htot
    omega
  | succ n ih =>
    intro remaining hlen acc req hacc htot
    rw [get_commits_loop]
    have h1 : ¬ remaining.take perPage = [] := by
      intro h
      have hc := congrArg List.length h
      rw [List.length_take] at hc
      simp only [List.length_nil] at hc
      omega
    rw [dif_neg h1]
    by_cases hhit : maxC ≤ acc.length + (remaining.take perPage).length
    · rw [show appendCommits maxC acc (remaining.take perPage)
          = (acc ++ (remaining.take perPage).take (maxC - acc.length), true) by
        rw [appendCommits_spec _ maxC acc hm hacc, if_pos hhit]]
      show req + 1 = req + (maxC - acc.length + perPage - 1) / perPage
      have hle : (remaining.take perPage).length ≤ perPage := by
        rw [List.length_take]
        omega
      have hdiv : (maxC - acc.length + perPage - 1) / perPage = 1 :=
        Nat.div_eq_of_lt_le (by omega) (by omega)
      omega
    · rw [show appendCommits maxC acc (remaining.take perPage)
          = (acc ++ remaining.take perPage, false) by
        rw [appendCommits_spec _ maxC acc hm hacc, if_neg hhit]]
      show (if (remaining.take perPage).length < perPage
          then (acc ++ remaining.take perPage, req + 1)
          else get_commits_loop perPage maxC (acc ++ remaining.take perPage)
            (remaining.drop perPage) (req + 1)).2
        = req + (maxC - acc.length + perPage - 1) / perPage
      by_cases h2 : (remaining.take perPage).length < perPage
      · exfalso
        have hall : remaining.take perPage = remaining := by
          rw [List.length_take] at h2
          exact List.take_of_length_le (by omega)
        rw [hall] at hhit
        omega
      · rw [if_neg h2]
        have hdl : (remaining.take perPage).length = perPage := by
          rw [List.length_take] at h2 ⊢
          omega
        rw [ih (remaining.drop perPage) (by rw [List.length_drop]; omega)
          _ (req + 1) (by rw [List.length_append, hdl]; rw [hdl] at hhit; omega)
          (by rw [List.length_append, List.length_drop, hdl]; omega)]
        have hx : perPage < maxC - acc.length := by
          rw [hdl] at hhit
          omega
        have e1 : maxC - (acc ++ remaining.take perPage).length + perPage - 1
            = maxC - acc.length - 1 := by
          rw [List.length_append, hdl]
          omega
        have e2 : maxC - acc.length + perPage - 1
            = (maxC - acc.length - 1) + perPage := by omega
        rw [e1, e2, Nat.add_div_right _ hpp]
        omega

/-- C9: with a positive `max_commits`, `get_commits` returns exactly the
first `min max_commits total` commits — stopping mid-page the moment the
limit is reached — and with `max_commits = 0` it pages until the short
or empty page and returns the whole history.  In particular (Scenario
E), for 3 pages of 100 items each and `max_commits = 150`, it returns
exactly 150 commits and issues exactly 2 page requests, never requesting
the third page. -/
theorem C9_get_commits_limit :
    (∀ (all : List Commit) (perPage maxC : Nat), 0 < perPage → 0 < maxC →
        (get_commits all perPage maxC).1 = all.take maxC ∧
        (get_commits all perPage maxC).1.length = min maxC all.length) ∧
    (∀ (all : List Commit) (perPage : Nat), 0 < perPage →
        (get_commits all perPage 0).1 = all) ∧
    (get_commits (List.replicate 300 ⟨0⟩) 100 150).1.length = 150 ∧
    (get_commits (List.replicate 300 ⟨0⟩) 100 150).2 = 2 := by
  have hmain : ∀ (all : List Commit) (perPage maxC : Nat),
      0 < perPage → 0 < maxC →
      (get_commits all perPage maxC).1 = all.take maxC := by
    intro all perPage maxC hpp hm
    simp only [get_commits]
    by_cases hc : 0 < maxC ∧ maxC < perPage
    · rw [if_pos hc,
        get_commits_loop_limit maxC maxC hm hm all.length all le_rfl []
          0 (by simpa using hm)]
      simp
    · rw [if_neg hc,
        get_commits_loop_limit perPage maxC hpp hm all.length all le_rfl []
          0 (by simpa using hm)]
      simp
  refine ⟨fun all perPage maxC hpp hm =>
    ⟨hmain all perPage maxC hpp hm, ?_⟩, ?_, ?_, ?_⟩
  · rw [hmain all perPage maxC hpp hm, List.length_take]
  · intro all perPage hpp
    simp only [get_commits]
    rw [if_neg (by omega),
      get_commits_loop_all perPage hpp all.length all le_rfl [] 0]
    simp
  · rw [hmain _ 100 150 (by norm_num) (by norm_num), List.take_replicate]
    simp
  · simp only [get_commits]
    rw [if_neg (by norm_num),
      get_commits_loop_requests 100 150 (by norm_num) (by norm_num)
        (List.replicate 300 ⟨0⟩).length _ le_rfl [] 0 (by norm_num)
        (by rw [List.length_replicate]; norm_num)]
    norm_num

/-- Witness for C9: three commits, `per_page = 2`, `max_commits = 2` —
the method returns exactly the first two commits. -/
theorem C9_witness :
    ((0 : Nat) < 2 ∧ (0 : Nat) < 2) ∧
    (get_commits [⟨1⟩, ⟨2⟩, ⟨3⟩] 2 2).1 = [⟨1⟩, ⟨2⟩] :=
  ⟨⟨by decide, by decide⟩, by
    rw [(C9_get_commits_limit.1 [⟨1⟩, ⟨2⟩, ⟨3⟩] 2 2 (by decide) (by decide)).1]
    rfl⟩
